import Mathlib

/-!
# Verification of the project-schedule normalizer (`mpp_parser.py`)

Shallow embedding of the `ProjectParser` core: the task collector, identity
resolver, field extractors, relation normalizer, hierarchy classifier, folder
builder and summary statistics of `parse_file`.

Modelling conventions, justified against the Python source:
* Every accessor of the external (MPXJ) object graph that the Python wraps in
  `try/except` (or checks against `None`) is modelled as an `Option`-valued
  field; `none` covers "accessor raised" and "accessor returned null" alike,
  because the guarded Python code treats the two identically (the `except`
  branch and the `None` branch fall through to the same default).
* `getUniqueID`/`getID` return boxed Java integers in the source model, so
  they are modelled as `Option Int` and their `str(...)` image is `toString`.
  `getOutlineNumber` returns a string ("1.2.1" style), modelled `Option String`.
* Python floats are idealized as exact rationals (`ℚ`).  `round(x, 2)` is
  modelled as rounding to the nearest multiple of 1/100; the tie-breaking rule
  is immaterial to every property proved below.
* A children accessor that raises or returns null is modelled as the empty
  child list, because `add_descendants` treats `None` and `[]` identically
  (`if not children: return`).  Null entries inside a child list are kept as
  `none` elements and skipped, mirroring `if child is None: continue`.
* The source task graph is modelled as a finite tree, matching the inputs on
  which the recursive Python collector terminates.
-/

/-- MPXJ `Duration`-like object: `getDuration()` value and `getUnits()` string
image. `none` models a null result or a raising accessor. -/
structure SrcDuration where
  value : Option ℚ
  units : Option String
  deriving Repr, DecidableEq

/-- MPXJ `Relation`-like object, parametrized by the task type to break the
mutual recursion with `SrcTask`.  `relType` is the `str(...)` image of
`getType()` when it is non-null and does not raise. -/
structure SrcRelP (τ : Type) where
  relType : Option String
  predecessorTask : Option τ
  successorTask : Option τ
  sourceTask : Option τ
  targetTask : Option τ
  lag : Option SrcDuration

/-- MPXJ `Task`-like object restricted to the accessors the verified
properties depend on.  Field order: uniqueID, ID, outline number, name,
outline level, summary flag, external flag, parent, remaining work,
predecessor relations, successor relations, children. -/
inductive SrcTask : Type where
  | mk (uniqueID : Option Int) (displayID : Option Int)
       (outlineNumber : Option String) (taskName : Option String)
       (outlineLevel : Option Int) (summaryFlag : Bool) (externalFlag : Bool)
       (parent : Option SrcTask) (remainingWork : Option SrcDuration)
       (preds : List (SrcRelP SrcTask)) (succs : List (SrcRelP SrcTask))
       (children : List (Option SrcTask)) : SrcTask

abbrev SrcRel : Type := SrcRelP SrcTask

/-- Accessor `task.getUniqueID()`. -/
def SrcTask.getUniqueID : SrcTask → Option Int
  | .mk u _ _ _ _ _ _ _ _ _ _ _ => u

/-- Accessor `task.getID()`. -/
def SrcTask.getID : SrcTask → Option Int
  | .mk _ i _ _ _ _ _ _ _ _ _ _ => i

/-- Accessor `task.getOutlineNumber()`. -/
def SrcTask.getOutlineNumber : SrcTask → Option String
  | .mk _ _ o _ _ _ _ _ _ _ _ _ => o

/-- Accessor `task.getName()`. -/
def SrcTask.getName : SrcTask → Option String
  | .mk _ _ _ n _ _ _ _ _ _ _ _ => n

/-- Accessor `task.getOutlineLevel()`. -/
def SrcTask.getOutlineLevel : SrcTask → Option Int
  | .mk _ _ _ _ l _ _ _ _ _ _ _ => l

/-- Accessor `bool(task.getSummary())`. -/
def SrcTask.getSummary : SrcTask → Bool
  | .mk _ _ _ _ _ s _ _ _ _ _ _ => s

/-- Accessor `bool(task.getExternalTask())`. -/
def SrcTask.getExternalTask : SrcTask → Bool
  | .mk _ _ _ _ _ _ e _ _ _ _ _ => e

/-- Accessor `task.getParentTask()`. -/
def SrcTask.getParentTask : SrcTask → Option SrcTask
  | .mk _ _ _ _ _ _ _ p _ _ _ _ => p

/-- Accessor `task.getRemainingWork()`. -/
def SrcTask.getRemainingWork : SrcTask → Option SrcDuration
  | .mk _ _ _ _ _ _ _ _ r _ _ _ => r

/-- Accessor `task.getPredecessors()`. -/
def SrcTask.getPredecessors : SrcTask → List SrcRel
  | .mk _ _ _ _ _ _ _ _ _ ps _ _ => ps

/-- Accessor `task.getSuccessors()`. -/
def SrcTask.getSuccessors : SrcTask → List SrcRel
  | .mk _ _ _ _ _ _ _ _ _ _ ss _ => ss

/-- Accessor `task.getChildTasks()`; a raising or null accessor is collapsed
to `[]` since `add_descendants` treats both identically. -/
def SrcTask.getChildTasks : SrcTask → List (Option SrcTask)
  | .mk _ _ _ _ _ _ _ _ _ _ _ cs => cs

/-- MPXJ `ProjectFile`-like object: the two flat retrieval accessors consumed
by `_collect_tasks`.  `none` models an accessor that is missing, raises, or
returns null/empty (all of which contribute no candidates). -/
structure SrcProject where
  allTasks : Option (List (Option SrcTask))
  tasks : Option (List (Option SrcTask))

/-! ## Field extractors (`_to_float`, `_to_duration_hours`) -/

/-- Embeds `ProjectParser._to_float`: `None` becomes `0.0`, a numeric value
passes through (the `doubleValue`/`float` conversions are identities in the
rational idealization). -/
def _to_float (val : Option ℚ) : ℚ :=
  match val with
  | none => 0
  | some v => v

/-- Helper for the Python `in` substring test: does `hay` start with `needle`? -/
def charsStartWith : List Char → List Char → Bool
  | [], _ => true
  | _ :: _, [] => false
  | a :: as, b :: bs => a == b && charsStartWith as bs

/-- Helper for the Python `in` substring test: does `needle` occur
contiguously in `hay`? -/
def charsHasSub (needle : List Char) : List Char → Bool
  | [] => needle.isEmpty
  | b :: bs => charsStartWith needle (b :: bs) || charsHasSub needle bs

/-- The Python substring test `needle in hay`. -/
def strContains (needle hay : String) : Bool :=
  charsHasSub needle.data hay.data

/-- The Python `str.upper()` (ASCII case mapping suffices for the unit and
relation-type strings the source compares against). -/
def pyUpper (s : String) : String :=
  String.mk (s.data.map Char.toUpper)

/-- The Python `str.replace('_', '')`: delete every underscore. -/
def stripUnderscores (s : String) : String :=
  String.mk (s.data.filter (fun c => c ≠ '_'))

/-- The Python `str.strip()`: drop whitespace from both ends. -/
def pyStrip (s : String) : String :=
  String.mk (((s.data.dropWhile Char.isWhitespace).reverse.dropWhile
    Char.isWhitespace).reverse)

/-- Embeds `ProjectParser._to_duration_hours` with an explicit hours-per-day
argument (the Python default is `8.0`, see `_to_duration_hours`).  A null
duration maps to `none`; a present duration with a null `getDuration()` value
also maps to `none`; otherwise the unit cascade multiplies day units by
`hpd`, week units by `hpd * 5`, and passes every other unit through. -/
def _to_duration_hours_hpd (duration : Option SrcDuration) (hpd : ℚ) : Option ℚ :=
  match duration with
  | none => none
  | some d =>
    match d.value with
    | none => none
    | some val =>
      let hours := _to_float (some val)
      match d.units with
      | none => some hours
      | some u0 =>
        if u0 = "" then some hours
        else
          let u := pyUpper u0
          if strContains "DAY" u || u = "D" then some (hours * hpd)
          else if strContains "WEEK" u || u = "W" then some (hours * hpd * 5)
          else some hours

/-- `_to_duration_hours` at its Python default `default_hours_per_day=8.0`. -/
def _to_duration_hours (duration : Option SrcDuration) : Option ℚ :=
  _to_duration_hours_hpd duration 8

/-! ## Identity resolver (`_task_id`) and relation helpers -/

/-- Embeds `ProjectParser._task_id`: the priority-ordered fallback chain
uniqueID → `"task-" + id` → `"outline-" + outlineNumber` (only when the
outline number is truthy, i.e. non-empty) → caller-supplied fallback. -/
def _task_id (t : SrcTask) (fallback : String) : String :=
  match t.getUniqueID with
  | some uid => toString uid
  | none =>
    match t.getID with
    | some tid => "task-" ++ toString tid
    | none =>
      match t.getOutlineNumber with
      | some outline => if outline = "" then fallback else "outline-" ++ outline
      | none => fallback

/-- Embeds `_task_id(parent_task, fallback='') if parent_task else None`
followed by `if not parent_id: parent_id = None` in `parse_file`. -/
def parentIdOf (parent : Option SrcTask) : Option String :=
  match parent with
  | none => none
  | some pt =>
    let pid := _task_id pt ""
    if pid = "" then none else some pid

/-- Embeds `ProjectParser._extract_relation_tasks` restricted to the
predecessor endpoint: modern accessor first, legacy `getSourceTask` fallback
when the modern one is null or raises. -/
def extractPredecessorTask (rel : SrcRel) : Option SrcTask :=
  match rel.predecessorTask with
  | some t => some t
  | none => rel.sourceTask

/-- Successor half of `_extract_relation_tasks`: `getSuccessorTask` with a
legacy `getTargetTask` fallback. -/
def extractSuccessorTask (rel : SrcRel) : Option SrcTask :=
  match rel.successorTask with
  | some t => some t
  | none => rel.targetTask

/-- Embeds `ProjectParser._normalize_relation_type`.  A null, raising, or
falsy `getType()` yields the base string `"FS"`; then the cascade of
substring / underscore-stripped-equality checks maps to one of the four
canonical relationship codes, defaulting to `"FS"`. -/
def _normalize_relation_type (rel : SrcRelP τ) : String :=
  let rel_type := match rel.relType with
    | some s => s
    | none => "FS"
  let upper := pyUpper rel_type
  let noUnders := stripUnderscores upper
  if strContains "FINISH_START" upper || noUnders = "FS" then "FS"
  else if strContains "START_START" upper || noUnders = "SS" then "SS"
  else if strContains "FINISH_FINISH" upper || noUnders = "FF" then "FF"
  else if strContains "START_FINISH" upper || noUnders = "SF" then "SF"
  else "FS"

/-- Embeds the lag extraction inside the relation loops of `parse_file`:
`lag_days = 0.0` unless the relation has a truthy lag whose `getDuration()`
converts, in which case `_to_float` of that value. -/
def lagDaysOf (rel : SrcRelP τ) : ℚ :=
  match rel.lag with
  | none => 0
  | some d => _to_float d.value

/-! ## Task collector (`_collect_tasks`) -/

/-- Strategy 1 of `_collect_tasks`: iterate `project.getAllTasks()` when it
is available and truthy, appending non-null elements. -/
def strategyAllTasks (p : SrcProject) : List SrcTask :=
  match p.allTasks with
  | none => []
  | some l => l.filterMap id

/-- Strategy 2 of `_collect_tasks`: iterate `project.getTasks()` when it is
available and truthy, appending non-null elements. -/
def strategyTopTasks (p : SrcProject) : List SrcTask :=
  match p.tasks with
  | none => []
  | some l => l.filterMap id

mutual
/-- Strategy 3 of `_collect_tasks` (`add_descendants`): the strict
descendants of one task, appended in depth-first preorder. -/
def descendTask : SrcTask → List SrcTask
  | .mk _ _ _ _ _ _ _ _ _ _ _ children => descendChildren children

/-- Descendant accumulation over a child list: null children are skipped,
each live child is appended and then recursed into. -/
def descendChildren : List (Option SrcTask) → List SrcTask
  | [] => []
  | none :: rest => descendChildren rest
  | some c :: rest => c :: (descendTask c ++ descendChildren rest)
end

/-- The candidate list of `_collect_tasks` before deduplication: strategy 1,
then strategy 2, then — iterating over a snapshot (`list(candidates)`) of the
first two — the preorder descendants of each snapshot element. -/
def candidates (p : SrcProject) : List SrcTask :=
  let base := strategyAllTasks p ++ strategyTopTasks p
  base ++ base.flatMap descendTask

/-- The positional fallback `f"row-{idx + 1}"` used by both the dedup pass
and `parse_file`'s per-record id resolution (with the respective indices). -/
def rowFallback (idx : Nat) : String :=
  "row-" ++ toString (idx + 1)

/-- Embeds the dedup loop of `_collect_tasks`: enumerate candidates, resolve
each one's stable id with the positional fallback, keep only first
occurrences per id (the `seen` set), preserving order. -/
def dedupGo : Nat → List String → List SrcTask → List SrcTask
  | _, _, [] => []
  | idx, seen, t :: ts =>
    let stable_id := _task_id t (rowFallback idx)
    if stable_id ∈ seen then dedupGo (idx + 1) seen ts
    else t :: dedupGo (idx + 1) (stable_id :: seen) ts

/-- Embeds `ProjectParser._collect_tasks`. -/
def _collect_tasks (p : SrcProject) : List SrcTask :=
  dedupGo 0 [] (candidates p)

/-! ## Task normalizer (the claim-relevant projection of a `parse_file` row)

Only the output fields that the verified properties mention are modelled;
the remaining ~50 fields of the Python `node` dict are independent per-field
extractions with no influence on `id`, `hierarchy_type`, `folder`,
`remainingHours`, relations, or the summary statistics. -/

/-- One entry of a record's `predecessors` list. -/
structure PredEntry where
  predecessorTaskId : String
  predecessorName : String
  relationship : String
  lagDays : ℚ
  isExternal : Bool
  deriving Repr, DecidableEq

/-- One entry of a record's `successors` list. -/
structure SuccEntry where
  successorTaskId : String
  successorName : String
  relationship : String
  lagDays : ℚ
  isExternal : Bool
  deriving Repr, DecidableEq

/-- The claim-relevant projection of one output task record (`node` dict). -/
structure Node where
  id : String
  name : String
  outline_level : Int
  hierarchy_type : String
  is_summary : Bool
  parent_id : Option String
  remainingHours : Option ℚ
  predecessors : List PredEntry
  successors : List SuccEntry
  folder : String
  deriving Repr, DecidableEq

/-- Embeds the body of the predecessor loop of `parse_file`: resolve the
endpoint, skip the relation when the endpoint or its id is unavailable,
otherwise build the entry. -/
def mkPredEntry (rel : SrcRel) : Option PredEntry :=
  match extractPredecessorTask rel with
  | none => none
  | some ptask =>
    let predecessor_id := _task_id ptask ""
    if predecessor_id = "" then none
    else some
      { predecessorTaskId := predecessor_id
        predecessorName := ptask.getName.getD ""
        relationship := _normalize_relation_type rel
        lagDays := lagDaysOf rel
        isExternal := ptask.getExternalTask }

/-- Embeds the body of the successor loop of `parse_file`. -/
def mkSuccEntry (rel : SrcRel) : Option SuccEntry :=
  match extractSuccessorTask rel with
  | none => none
  | some stask =>
    let successor_id := _task_id stask ""
    if successor_id = "" then none
    else some
      { successorTaskId := successor_id
        successorName := stask.getName.getD ""
        relationship := _normalize_relation_type rel
        lagDays := lagDaysOf rel
        isExternal := stask.getExternalTask }

/-- Embeds one iteration of the main task loop of `parse_file` (the
claim-relevant fields of the `node` dict).  `hierarchy_type` starts at the
literal `'project'` exactly as in the source and is overwritten by the
classifier pass; `folder` is filled by the folder pass. -/
def normalizeTask (idx : Nat) (t : SrcTask) : Node :=
  { id := _task_id t (rowFallback idx)
    name := t.getName.getD ""
    outline_level := t.getOutlineLevel.getD 0
    hierarchy_type := "project"
    is_summary := t.getSummary
    parent_id := parentIdOf t.getParentTask
    remainingHours := t.getRemainingWork.map (fun d => _to_float d.value)
    predecessors := t.getPredecessors.filterMap mkPredEntry
    successors := t.getSuccessors.filterMap mkSuccEntry
    folder := "" }

/-- `enumerate`-style map used by the task loop of `parse_file`. -/
def mapWithIndex (f : Nat → α → β) : Nat → List α → List β
  | _, [] => []
  | i, t :: ts => f i t :: mapWithIndex f (i + 1) ts

/-! ## Hierarchy classifier -/

/-- Python `max(outline_levels) if outline_levels else 0`. -/
def listMax : List Int → Int
  | [] => 0
  | x :: xs => xs.foldl max x

/-- Python `min(outline_levels) if outline_levels else 0`. -/
def listMin : List Int → Int
  | [] => 0
  | x :: xs => xs.foldl min x

/-- The fixed hierarchy anchor of `parse_file` (level 2 = unit). -/
def hierarchy_anchor : Int := 2

/-- Embeds the first classification pass of `parse_file`: the depth cascade
project / unit / phase / sub_task / task. -/
def assignHierarchy (max_outline : Int) (n : Node) : Node :=
  { n with hierarchy_type :=
      if n.outline_level ≤ 1 then "project"
      else if n.outline_level = hierarchy_anchor then "unit"
      else if n.outline_level = hierarchy_anchor + 1 then "phase"
      else if hierarchy_anchor + 3 ≤ max_outline ∧ n.outline_level = max_outline then "sub_task"
      else "task" }

/-- Embeds the override pass of `parse_file`: a record at depth ≤ 1 that is a
summary or has no resolved parent is forced to `'project'`. -/
def overrideRoot (n : Node) : Node :=
  if n.outline_level ≤ 1 ∧ (n.is_summary = true ∨ n.parent_id = none) then
    { n with hierarchy_type := "project" }
  else n

/-! ## Folder builder (`build_folder`) -/

/-- Embeds the Python dict `by_id = {str(t.get('id')): t for t in all_tasks}`
(later entries overwrite earlier ones, hence the reversed search). -/
def lookupById (ns : List Node) (k : String) : Option Node :=
  ns.reverse.find? (fun n => n.id = k)

/-- Embeds the parent-name computation of `build_folder`:
`str(parent_node.get('name') or str(parent_id)).strip()`. -/
def parentDisplayName (pnode : Node) (pid : String) : String :=
  pyStrip (if pnode.name = "" then pid else pnode.name)

/-- Embeds `build_folder` (the memoized recursion of `parse_file`), made
total with explicit fuel.  On every input where the Python recursion
terminates — i.e. the parent chain is acyclic, hence of length at most the
number of distinct record ids — any fuel larger than that length computes the
same value the Python computes; `parse_file` below invokes it with fuel
`len(all_tasks) + 1`. -/
def build_folder (byId : String → Option Node) : Nat → String → String
  | 0, _ => ""
  | fuel + 1, task_id =>
    if task_id = "" then ""
    else
      match byId task_id with
      | none => ""
      | some task_node =>
        match task_node.parent_id with
        | none => ""
        | some parent_id =>
          if parent_id = "" then ""
          else
            match byId parent_id with
            | none => ""
            | some parent_node =>
              let parent_folder := build_folder byId fuel parent_id
              let parent_name := parentDisplayName parent_node parent_id
              if parent_folder = "" then parent_name
              else parent_folder ++ " / " ++ parent_name

/-! ## Summary statistics and `parse_file` -/

/-- Python `round(x, 2)`: rounding to the nearest multiple of 1/100 in the
rational idealization of floats. -/
def round2 (x : ℚ) : ℚ :=
  ((round (x * 100) : ℤ) : ℚ) / 100

/-- The claim-relevant projection of `summary.dependencies`. -/
structure DepStats where
  totalLeafTasks : Nat
  linkedLeafTasks : Nat
  isolatedLeafTasks : Nat
  coveragePercent : ℚ
  deriving Repr, DecidableEq

/-- The claim-relevant projection of `summary.taskCollection`. -/
structure CollectionStats where
  collectedTaskCount : Nat
  parsedTaskCount : Nat
  deriving Repr, DecidableEq

/-- The claim-relevant projection of `summary`. -/
structure Summary where
  total_rows : Nat
  min_outline_level : Int
  max_outline_level : Int
  dependencies : DepStats
  taskCollection : CollectionStats
  deriving Repr, DecidableEq

/-- The claim-relevant projection of the `parse_file` result. -/
structure ParseResult where
  success : Bool
  tasks : List Node
  summary : Summary
  deriving Repr, DecidableEq

/-- Truthiness of `(t.get('predecessors') or []) or (t.get('successors') or [])`. -/
def isLinked (n : Node) : Bool :=
  !n.predecessors.isEmpty || !n.successors.isEmpty

/-- Embeds `ProjectParser.parse_file` (tasks and summary; the project-info
block and the fields not named by any verified property are omitted). -/
def parse_file (p : SrcProject) : ParseResult :=
  let tasks := _collect_tasks p
  let all_tasks0 := mapWithIndex normalizeTask 0 tasks
  let outline_levels := all_tasks0.map (fun n => n.outline_level)
  let max_outline := listMax outline_levels
  let min_outline := listMin outline_levels
  let all_tasks1 := all_tasks0.map (assignHierarchy max_outline)
  let all_tasks2 := all_tasks1.map overrideRoot
  let byId := lookupById all_tasks2
  let all_tasks := all_tasks2.map
    (fun n => { n with folder := build_folder byId (all_tasks2.length + 1) n.id })
  let leaf_tasks := all_tasks.filter (fun n => !n.is_summary)
  let linked_leaf_tasks := leaf_tasks.filter isLinked
  let coverage_percent : ℚ :=
    if 0 < leaf_tasks.length then
      round2 (((linked_leaf_tasks.length : ℚ) / (leaf_tasks.length : ℚ)) * 100)
    else 0
  { success := true
    tasks := all_tasks
    summary :=
      { total_rows := all_tasks.length
        min_outline_level := min_outline
        max_outline_level := max_outline
        dependencies :=
          { totalLeafTasks := leaf_tasks.length
            linkedLeafTasks := linked_leaf_tasks.length
            isolatedLeafTasks := leaf_tasks.length - linked_leaf_tasks.length
            coveragePercent := coverage_percent }
        taskCollection :=
          { collectedTaskCount := tasks.length
            parsedTaskCount := all_tasks.length } } }

/-- The day-unit test of `_to_duration_hours`: `'DAY' in u or 'D' == u` on the
upper-cased unit string. -/
def dayUnitTest (u : String) : Bool :=
  strContains "DAY" (pyUpper u) || pyUpper u = "D"

/-- The week-unit test of `_to_duration_hours`: `'WEEK' in u or 'W' == u` on
the upper-cased unit string. -/
def weekUnitTest (u : String) : Bool :=
  strContains "WEEK" (pyUpper u) || pyUpper u = "W"

/-! ## Structure of `parse_file`'s task list

The three post-normalization passes (hierarchy cascade, root override, folder
assignment) only touch `hierarchy_type` and `folder`; every other field of a
record is fixed by `normalizeTask`.  The lemmas below make this explicit and
decompose `(parse_file p).tasks` accordingly. -/

/-- The records produced by the main task loop, before the classifier pass. -/
def collectNodes (p : SrcProject) : List Node :=
  mapWithIndex normalizeTask 0 (_collect_tasks p)

/-- The `max_outline` value computed by `parse_file`. -/
def parseMaxOutline (p : SrcProject) : Int :=
  listMax ((collectNodes p).map (fun n => n.outline_level))

/-- The record list after the two hierarchy passes (`all_tasks` just before
the folder pass). -/
def stage2 (p : SrcProject) : List Node :=
  (collectNodes p).map (fun n => overrideRoot (assignHierarchy (parseMaxOutline p) n))

/-- The composition of the three post-normalization passes applied to one
record of `collectNodes p`. -/
def finishNode (p : SrcProject) (n : Node) : Node :=
  let n2 := overrideRoot (assignHierarchy (parseMaxOutline p) n)
  { n2 with folder := build_folder (lookupById (stage2 p)) ((stage2 p).length + 1) n2.id }


/-! ## Claim-side definitions and concrete demonstration values -/

/-- The tier cascade exactly as the specification words it: depth ≤ 1 →
project; depth 2 → unit; depth 3 → phase; depth equal to the maximum outline
depth and that maximum ≥ 5 → sub_task; every other depth → task. -/
def claimTier (max_outline level : Int) : String :=
  if level ≤ 1 then "project"
  else if level = 2 then "unit"
  else if level = 3 then "phase"
  else if level = max_outline ∧ 5 ≤ max_outline then "sub_task"
  else "task"

/-- A relation-type string is recognized when any of the four cascade tests
of `_normalize_relation_type` fires. -/
def relTypeMatches (s : String) : Bool :=
  strContains "FINISH_START" (pyUpper s) || stripUnderscores (pyUpper s) == "FS"
  || strContains "START_START" (pyUpper s) || stripUnderscores (pyUpper s) == "SS"
  || strContains "FINISH_FINISH" (pyUpper s) || stripUnderscores (pyUpper s) == "FF"
  || strContains "START_FINISH" (pyUpper s) || stripUnderscores (pyUpper s) == "SF"

/-- Concrete endpoint task used by the demonstration relation. -/
def tEnd : SrcTask :=
  .mk (some 9) none none (some "End") (some 4) false false none none [] [] []

/-- Concrete relation whose source type string is unrecognized. -/
def relUnknown : SrcRel :=
  { relType := some "garbage", predecessorTask := some tEnd,
    successorTask := none, sourceTask := none, targetTask := none, lag := none }

/-- Stub of the demonstration root task as seen through `getParentTask` (the
model is a finite tree, so the upward pointer carries the parent accessor
values rather than the parent node itself). -/
def tAstub : SrcTask :=
  .mk (some 1) none none (some "A") (some 1) true false none none [] [] []

/-- Concrete demonstration child task: unit-level, zero remaining work, one
predecessor relation with an unrecognized type. -/
def tB : SrcTask :=
  .mk (some 2) none none (some "B") (some 2) false false (some tAstub)
    (some ⟨some 0, none⟩) [relUnknown] [] []

/-- Concrete demonstration root task: summary, level 1, one child. -/
def tA : SrcTask :=
  .mk (some 1) none none (some "A") (some 1) true false none none [] [] [some tB]

/-- Concrete demonstration project with overlapping retrieval strategies. -/
def demoProject : SrcProject :=
  { allTasks := some [some tA, some tB], tasks := some [some tA] }

/-- The expected first output record of `parse_file demoProject`. -/
def nodeA : Node :=
  { id := "1", name := "A", outline_level := 1, hierarchy_type := "project",
    is_summary := true, parent_id := none, remainingHours := none,
    predecessors := [], successors := [], folder := "" }

/-- The expected second output record of `parse_file demoProject`. -/
def nodeB : Node :=
  { id := "2", name := "B", outline_level := 2, hierarchy_type := "unit",
    is_summary := false, parent_id := some "1", remainingHours := some 0,
    predecessors := [{ predecessorTaskId := "9", predecessorName := "End",
                       relationship := "FS", lagDays := 0, isExternal := false }],
    successors := [], folder := "A" }


/-- Termination measure for `build_folder`: the parent chain starting at the
given id reaches a base case within the given number of recursion frames.
On any input where the Python recursion terminates, this holds for some
bound. -/
def chainShort (byId : String → Option Node) : Nat → String → Bool
  | 0, _ => false
  | k + 1, task_id =>
    if task_id = "" then true
    else
      match byId task_id with
      | none => true
      | some node =>
        match node.parent_id with
        | none => true
        | some pid =>
          if pid = "" then true
          else
            match byId pid with
            | none => true
            | some _ => chainShort byId k pid

/-- The identifier chain exactly as the specification words it: the first of
str(uniqueID), "task-"+id, "outline-"+outlineNumber (a strategy that yields a
value only when the outline number is non-empty), or the fallback, that is
non-null and non-empty. -/
def resolveIdSpec (t : SrcTask) (fallback : String) : String :=
  let cands : List String :=
    [t.getUniqueID.map (fun uid => toString uid),
     t.getID.map (fun tid => "task-" ++ toString tid),
     t.getOutlineNumber.bind (fun o => if o = "" then none else some ("outline-" ++ o)),
     some fallback].filterMap id
  (cands.find? (fun s => !(s == ""))).getD ""

/-- The source-derived part of `_task_id`: `some` when one of the three
accessor strategies yields an identifier, `none` when `_task_id` would return
the caller-supplied fallback. -/
def resolvedId (t : SrcTask) : Option String :=
  match t.getUniqueID with
  | some uid => some (toString uid)
  | none =>
    match t.getID with
    | some tid => some ("task-" ++ toString tid)
    | none =>
      match t.getOutlineNumber with
      | some o => if o = "" then none else some ("outline-" ++ o)
      | none => none

/-- Candidates paired with the dedup-time stable id (computed with the
candidate-position fallback), mirroring the enumerate of `_collect_tasks`. -/
def stampGo : Nat → List SrcTask → List (SrcTask × String)
  | _, [] => []
  | i, t :: ts => (t, _task_id t (rowFallback i)) :: stampGo (i + 1) ts

/-- First-occurrence filter on key-stamped candidates: the analysis view of
the `seen`-set loop of `_collect_tasks`. -/
def keyFilter : List String → List (SrcTask × String) → List (SrcTask × String)
  | _, [] => []
  | seen, (a, k) :: rest =>
    if k ∈ seen then keyFilter seen rest else (a, k) :: keyFilter (k :: seen) rest

/-- First-occurrence filter on the keys alone (first-seen order of distinct
stable identifiers). -/
def nubKeys : List String → List String → List String
  | _, [] => []
  | seen, k :: ks => if k ∈ seen then nubKeys seen ks else k :: nubKeys (k :: seen) ks

/-- Root of the 3-level demonstration chain root→mid→leaf. -/
def rootN : Node :=
  { id := "r", name := "A", outline_level := 1, hierarchy_type := "project",
    is_summary := false, parent_id := none, remainingHours := none,
    predecessors := [], successors := [], folder := "" }

/-- Middle record of the 3-level demonstration chain. -/
def midN : Node :=
  { id := "m", name := "B", outline_level := 2, hierarchy_type := "unit",
    is_summary := false, parent_id := some "r", remainingHours := none,
    predecessors := [], successors := [], folder := "" }

/-- Leaf record of the 3-level demonstration chain. -/
def leafN : Node :=
  { id := "l", name := "C", outline_level := 3, hierarchy_type := "phase",
    is_summary := false, parent_id := some "m", remainingHours := none,
    predecessors := [], successors := [], folder := "" }

/-- The 3-level demonstration chain. -/
def chainNodes : List Node := [rootN, midN, leafN]

/-! ## Generic helper lemmas -/

theorem mapWithIndex_length (f : Nat → α → β) :
    ∀ (i : Nat) (l : List α), (mapWithIndex f i l).length = l.length := by
  intro i l
  induction l generalizing i with
  | nil => rfl
  | cons a l ih => simp [mapWithIndex, ih]

theorem mapWithIndex_getElem? (f : Nat → α → β) :
    ∀ (i j : Nat) (l : List α), (mapWithIndex f i l)[j]? = l[j]?.map (f (i + j)) := by
  intro i j l
  induction l generalizing i j with
  | nil => simp [mapWithIndex]
  | cons a l ih =>
    cases j with
    | zero => simp [mapWithIndex]
    | succ j =>
      simp only [mapWithIndex, List.getElem?_cons_succ, ih (i + 1) j]
      have : i + 1 + j = i + (j + 1) := by omega
      rw [this]

theorem mem_mapWithIndex {f : Nat → α → β} {b : β} :
    ∀ {i : Nat} {l : List α}, b ∈ mapWithIndex f i l →
      ∃ j a, l[j]? = some a ∧ b = f (i + j) a := by
  intro i l h
  induction l generalizing i with
  | nil => simp [mapWithIndex] at h
  | cons a l ih =>
    simp only [mapWithIndex, List.mem_cons] at h
    rcases h with h | h
    · exact ⟨0, a, by simp, by simpa using h⟩
    · obtain ⟨j, a', hj, hb⟩ := ih h
      exact ⟨j + 1, a', by simpa using hj, by rw [hb]; congr 1; omega⟩

theorem mapWithIndex_map (f : Nat → α → β) (g : β → γ) :
    ∀ (i : Nat) (l : List α),
      (mapWithIndex f i l).map g = mapWithIndex (fun j a => g (f j a)) i l := by
  intro i l
  induction l generalizing i with
  | nil => rfl
  | cons a l ih => simp [mapWithIndex, ih]

theorem assignHierarchy_id (m : Int) (n : Node) : (assignHierarchy m n).id = n.id := rfl

theorem assignHierarchy_outline (m : Int) (n : Node) :
    (assignHierarchy m n).outline_level = n.outline_level := rfl

theorem assignHierarchy_preds (m : Int) (n : Node) :
    (assignHierarchy m n).predecessors = n.predecessors := rfl

theorem assignHierarchy_succs (m : Int) (n : Node) :
    (assignHierarchy m n).successors = n.successors := rfl

theorem assignHierarchy_remaining (m : Int) (n : Node) :
    (assignHierarchy m n).remainingHours = n.remainingHours := rfl

theorem assignHierarchy_isSummary (m : Int) (n : Node) :
    (assignHierarchy m n).is_summary = n.is_summary := rfl

theorem overrideRoot_id (n : Node) : (overrideRoot n).id = n.id := by
  unfold overrideRoot; split <;> rfl

theorem overrideRoot_outline (n : Node) :
    (overrideRoot n).outline_level = n.outline_level := by
  unfold overrideRoot; split <;> rfl

theorem overrideRoot_preds (n : Node) : (overrideRoot n).predecessors = n.predecessors := by
  unfold overrideRoot; split <;> rfl

theorem overrideRoot_succs (n : Node) : (overrideRoot n).successors = n.successors := by
  unfold overrideRoot; split <;> rfl

theorem overrideRoot_remaining (n : Node) :
    (overrideRoot n).remainingHours = n.remainingHours := by
  unfold overrideRoot; split <;> rfl

theorem overrideRoot_isSummary (n : Node) : (overrideRoot n).is_summary = n.is_summary := by
  unfold overrideRoot; split <;> rfl

theorem finishNode_id (p : SrcProject) (n : Node) : (finishNode p n).id = n.id := by
  simp [finishNode, overrideRoot_id, assignHierarchy_id]

theorem finishNode_outline (p : SrcProject) (n : Node) :
    (finishNode p n).outline_level = n.outline_level := by
  simp [finishNode, overrideRoot_outline, assignHierarchy_outline]

theorem finishNode_preds (p : SrcProject) (n : Node) :
    (finishNode p n).predecessors = n.predecessors := by
  simp [finishNode, overrideRoot_preds, assignHierarchy_preds]

theorem finishNode_succs (p : SrcProject) (n : Node) :
    (finishNode p n).successors = n.successors := by
  simp [finishNode, overrideRoot_succs, assignHierarchy_succs]

theorem finishNode_remaining (p : SrcProject) (n : Node) :
    (finishNode p n).remainingHours = n.remainingHours := by
  simp [finishNode, overrideRoot_remaining, assignHierarchy_remaining]

theorem finishNode_isSummary (p : SrcProject) (n : Node) :
    (finishNode p n).is_summary = n.is_summary := by
  simp [finishNode, overrideRoot_isSummary, assignHierarchy_isSummary]

theorem parse_tasks_eq (p : SrcProject) :
    (parse_file p).tasks = (collectNodes p).map (finishNode p) := by
  simp only [parse_file, collectNodes, finishNode, stage2, parseMaxOutline, List.map_map]
  rfl

theorem parse_summary_collected (p : SrcProject) :
    (parse_file p).summary.taskCollection.collectedTaskCount = (_collect_tasks p).length := rfl

theorem parse_summary_parsed (p : SrcProject) :
    (parse_file p).summary.taskCollection.parsedTaskCount = (parse_file p).tasks.length := rfl

theorem parse_summary_total_rows (p : SrcProject) :
    (parse_file p).summary.total_rows = (parse_file p).tasks.length := rfl

/-! ## C10 — collection counts agree -/

/-- C10: for every parse, `summary.taskCollection.collectedTaskCount` equals
`summary.taskCollection.parsedTaskCount`, and both equal `total_rows`, the
length of the returned tasks sequence: normalization emits exactly one record
per deduplicated task. -/
theorem c10_collection_counts (p : SrcProject) :
    (parse_file p).summary.taskCollection.collectedTaskCount
        = (parse_file p).summary.taskCollection.parsedTaskCount
    ∧ (parse_file p).summary.taskCollection.parsedTaskCount
        = (parse_file p).summary.total_rows
    ∧ (parse_file p).summary.total_rows = (parse_file p).tasks.length := by
  refine ⟨?_, rfl, rfl⟩
  show (_collect_tasks p).length = (parse_file p).tasks.length
  rw [parse_tasks_eq, List.length_map]
  simp [collectNodes, mapWithIndex_length]

/-! ## C9 — collector strategy independence and total failure -/

/-- C9: if every task-retrieval strategy is missing or throws, `_collect_tasks`
returns the empty collection (rather than raising — the embedding is a total
function); and the failure of either flat accessor leaves the contribution of
the remaining strategy and of the children descent intact. -/
theorem c9_collection_fallback (p : SrcProject) :
    (p.allTasks = none → p.tasks = none → _collect_tasks p = [])
    ∧ (p.allTasks = none →
        candidates p = strategyTopTasks p ++ (strategyTopTasks p).flatMap descendTask)
    ∧ (p.tasks = none →
        candidates p = strategyAllTasks p ++ (strategyAllTasks p).flatMap descendTask)
    ∧ candidates p
        = (strategyAllTasks p ++ strategyTopTasks p)
          ++ (strategyAllTasks p ++ strategyTopTasks p).flatMap descendTask := by
  refine ⟨?_, ?_, ?_, rfl⟩
  · intro h1 h2
    simp [_collect_tasks, candidates, strategyAllTasks, strategyTopTasks, h1, h2, dedupGo]
  · intro h1
    simp [candidates, strategyAllTasks, h1]
  · intro h2
    simp [candidates, strategyTopTasks, h2]

/-- Witness for C9 at the concrete project whose two accessors both fail. -/
theorem c9_collection_fallback_witness :
    (SrcProject.mk none none).allTasks = none
    ∧ (SrcProject.mk none none).tasks = none
    ∧ _collect_tasks (SrcProject.mk none none) = [] :=
  ⟨rfl, rfl, (c9_collection_fallback (SrcProject.mk none none)).1 rfl rfl⟩

/-! ## C5 — duration-to-hours conversion -/

/-- C5: `_to_duration_hours` maps an absent duration to null, multiplies a
day-unit value by the hours-per-day constant (default 8.0: the last conjunct),
multiplies a week-unit value by hours-per-day × 5, and passes the value of
every other unit (including an absent or empty unit string) through
unmodified. -/
theorem c5_duration_conversion :
    (∀ hpd : ℚ, _to_duration_hours_hpd none hpd = none)
    ∧ (∀ (v : ℚ) (u : String) (hpd : ℚ), dayUnitTest u = true →
        _to_duration_hours_hpd (some ⟨some v, some u⟩) hpd = some (v * hpd))
    ∧ (∀ (v : ℚ) (u : String) (hpd : ℚ), dayUnitTest u = false → weekUnitTest u = true →
        _to_duration_hours_hpd (some ⟨some v, some u⟩) hpd = some (v * hpd * 5))
    ∧ (∀ (v : ℚ) (u : String) (hpd : ℚ), dayUnitTest u = false → weekUnitTest u = false →
        _to_duration_hours_hpd (some ⟨some v, some u⟩) hpd = some v)
    ∧ (∀ (v : ℚ) (hpd : ℚ), _to_duration_hours_hpd (some ⟨some v, none⟩) hpd = some v)
    ∧ (∀ d : Option SrcDuration, _to_duration_hours d = _to_duration_hours_hpd d 8) := by
  refine ⟨fun _ => rfl, ?_, ?_, ?_, fun _ _ => rfl, fun _ => rfl⟩
  · intro v u hpd h
    by_cases hu : u = ""
    · subst hu; exact absurd h (by decide)
    · unfold dayUnitTest at h
      simp [_to_duration_hours_hpd, _to_float, hu, h]
  · intro v u hpd hday hweek
    by_cases hu : u = ""
    · subst hu; exact absurd hweek (by decide)
    · unfold dayUnitTest at hday
      unfold weekUnitTest at hweek
      simp [_to_duration_hours_hpd, _to_float, hu, hday, hweek]
  · intro v u hpd hday hweek
    by_cases hu : u = ""
    · subst hu; simp [_to_duration_hours_hpd, _to_float]
    · unfold dayUnitTest at hday
      unfold weekUnitTest at hweek
      simp [_to_duration_hours_hpd, _to_float, hu, hday, hweek]

/-- Witness for C5: a 3-day duration converts to 24 hours at the default
rate, a 2-week duration to 80 hours, an hour-unit value passes through. -/
theorem c5_duration_conversion_witness :
    dayUnitTest "days" = true
    ∧ _to_duration_hours_hpd (some ⟨some 3, some "days"⟩) 8 = some (3 * 8)
    ∧ dayUnitTest "w" = false ∧ weekUnitTest "w" = true
    ∧ _to_duration_hours_hpd (some ⟨some 2, some "w"⟩) 8 = some (2 * 8 * 5)
    ∧ dayUnitTest "h" = false ∧ weekUnitTest "h" = false
    ∧ _to_duration_hours_hpd (some ⟨some 7, some "h"⟩) 8 = some 7 :=
  ⟨by decide, c5_duration_conversion.2.1 3 "days" 8 (by decide),
   by decide, by decide, c5_duration_conversion.2.2.1 2 "w" 8 (by decide) (by decide),
   by decide, by decide, c5_duration_conversion.2.2.2.1 7 "h" 8 (by decide) (by decide)⟩

/-! ## C7 — relationship codes -/

theorem normalize_relation_mem (rel : SrcRelP τ) :
    _normalize_relation_type rel ∈ (["FS", "SS", "FF", "SF"] : List String) := by
  unfold _normalize_relation_type
  dsimp only
  split_ifs <;> simp

theorem mkPredEntry_relationship {rel : SrcRel} {e : PredEntry}
    (h : mkPredEntry rel = some e) : e.relationship = _normalize_relation_type rel := by
  unfold mkPredEntry at h
  cases hpt : extractPredecessorTask rel with
  | none => rw [hpt] at h; exact absurd h (by simp)
  | some ptask =>
    rw [hpt] at h
    dsimp at h
    split at h
    · exact absurd h (by simp)
    · cases h; rfl

theorem mkSuccEntry_relationship {rel : SrcRel} {e : SuccEntry}
    (h : mkSuccEntry rel = some e) : e.relationship = _normalize_relation_type rel := by
  unfold mkSuccEntry at h
  cases hst : extractSuccessorTask rel with
  | none => rw [hst] at h; exact absurd h (by simp)
  | some stask =>
    rw [hst] at h
    dsimp at h
    split at h
    · exact absurd h (by simp)
    · cases h; rfl

theorem mem_parse_normalized {p : SrcProject} {n : Node}
    (hn : n ∈ (parse_file p).tasks) :
    ∃ (j : Nat) (t : SrcTask), (_collect_tasks p)[j]? = some t
      ∧ n = finishNode p (normalizeTask j t) := by
  rw [parse_tasks_eq] at hn
  obtain ⟨n0, hn0, rfl⟩ := List.mem_map.mp hn
  obtain ⟨j, t, hj, rfl⟩ := mem_mapWithIndex hn0
  exact ⟨j, t, hj, by rw [Nat.zero_add]⟩

/-- C7: every predecessor or successor entry in the output has its
`relationship` in the closed set FS/SS/FF/SF, and a missing, unreadable, or
unrecognized source relation type defaults to FS. -/
theorem c7_relationship_codes (p : SrcProject) :
    (∀ n ∈ (parse_file p).tasks,
        (∀ e ∈ n.predecessors, e.relationship ∈ (["FS", "SS", "FF", "SF"] : List String))
        ∧ (∀ e ∈ n.successors, e.relationship ∈ (["FS", "SS", "FF", "SF"] : List String)))
    ∧ (∀ rel : SrcRel, rel.relType = none → _normalize_relation_type rel = "FS")
    ∧ (∀ (rel : SrcRel) (s : String), rel.relType = some s → relTypeMatches s = false →
        _normalize_relation_type rel = "FS") := by
  refine ⟨?_, ?_, ?_⟩
  · intro n hn
    obtain ⟨j, t, _, rfl⟩ := mem_parse_normalized hn
    constructor
    · intro e he
      rw [finishNode_preds] at he
      obtain ⟨rel, _, hrel⟩ := List.mem_filterMap.mp he
      rw [mkPredEntry_relationship hrel]
      exact normalize_relation_mem rel
    · intro e he
      rw [finishNode_succs] at he
      obtain ⟨rel, _, hrel⟩ := List.mem_filterMap.mp he
      rw [mkSuccEntry_relationship hrel]
      exact normalize_relation_mem rel
  · intro rel h
    unfold _normalize_relation_type
    rw [h]
    decide
  · intro rel s hs h
    simp only [relTypeMatches, Bool.or_eq_false_iff, beq_eq_false_iff_ne, ne_eq] at h
    obtain ⟨⟨⟨⟨⟨⟨⟨h1, h2⟩, h3⟩, h4⟩, h5⟩, h6⟩, h7⟩, h8⟩ := h
    unfold _normalize_relation_type
    rw [hs]
    simp [h1, h2, h3, h4, h5, h6, h7, h8]

/-- Witness for C7 at the demonstration project: the record for task "B" has
exactly one predecessor entry, whose unrecognized source type string
"garbage" defaulted to FS. -/
theorem c7_relationship_codes_witness :
    nodeB ∈ (parse_file demoProject).tasks
    ∧ nodeB.predecessors.map (fun e => e.relationship) = ["FS"]
    ∧ (∀ e ∈ nodeB.predecessors, e.relationship ∈ (["FS", "SS", "FF", "SF"] : List String))
    ∧ relUnknown.relType = some "garbage" ∧ relTypeMatches "garbage" = false
    ∧ _normalize_relation_type relUnknown = "FS" :=
  ⟨by decide, by decide,
   ((c7_relationship_codes demoProject).1 nodeB (by decide)).1,
   rfl, by decide,
   (c7_relationship_codes demoProject).2.2 relUnknown "garbage" rfl (by decide)⟩

/-! ## C6 — null vs zero remaining work -/

/-- C6: a task without a remaining-work object yields `remainingHours = none`
in its output record, while a task whose remaining-work object reports zero
yields `remainingHours = some 0`; the first conjunct ties every output record
position to its collected source task. -/
theorem c6_null_vs_zero (p : SrcProject) :
    (∀ j : Nat, ((parse_file p).tasks[j]?).map Node.remainingHours
        = ((_collect_tasks p)[j]?).map
            (fun t => t.getRemainingWork.map (fun d => _to_float d.value)))
    ∧ (∀ (i : Nat) (t : SrcTask), t.getRemainingWork = none →
        (normalizeTask i t).remainingHours = none)
    ∧ (∀ (i : Nat) (t : SrcTask) (u : Option String),
        t.getRemainingWork = some ⟨some 0, u⟩ →
        (normalizeTask i t).remainingHours = some 0) := by
  refine ⟨?_, ?_, ?_⟩
  · intro j
    rw [parse_tasks_eq, List.getElem?_map]
    show ((mapWithIndex normalizeTask 0 (_collect_tasks p))[j]?.map (finishNode p)).map
        Node.remainingHours = _
    rw [mapWithIndex_getElem?]
    cases h : (_collect_tasks p)[j]? with
    | none => rfl
    | some t =>
      simp only [Option.map_some']
      rw [finishNode_remaining]
      rfl
  · intro i t h
    simp [normalizeTask, h]
  · intro i t u h
    simp [normalizeTask, h, _to_float]

/-- Witness for C6 at the demonstration tasks: task "A" has no remaining-work
object and yields null; task "B" has a remaining-work object reporting zero
and yields 0.0. -/
theorem c6_null_vs_zero_witness :
    tA.getRemainingWork = none
    ∧ (normalizeTask 0 tA).remainingHours = none
    ∧ tB.getRemainingWork = some ⟨some 0, none⟩
    ∧ (normalizeTask 1 tB).remainingHours = some 0 :=
  ⟨rfl, (c6_null_vs_zero demoProject).2.1 0 tA rfl, rfl,
   (c6_null_vs_zero demoProject).2.2 1 tB none rfl⟩

/-! ## C2 — hierarchy classification -/

theorem classify_eq (m : Int) (n : Node) :
    (overrideRoot (assignHierarchy m n)).hierarchy_type = claimTier m n.outline_level := by
  by_cases hl : n.outline_level ≤ 1
  · have ha : (assignHierarchy m n).hierarchy_type = "project" := by
      simp [assignHierarchy, hl]
    unfold overrideRoot
    split
    · simp [claimTier, hl]
    · rw [ha]; simp [claimTier, hl]
  · have ho : (assignHierarchy m n).outline_level = n.outline_level := rfl
    unfold overrideRoot
    rw [if_neg (by rw [ho]; exact fun hc => hl hc.1)]
    simp only [assignHierarchy, claimTier, hierarchy_anchor]
    rw [if_neg hl, if_neg hl]
    by_cases h2 : n.outline_level = 2
    · simp [h2]
    · rw [if_neg h2, if_neg h2]
      by_cases h3 : n.outline_level = 3
      · have : n.outline_level = 2 + 1 := by omega
        simp [h3, this]
      · rw [if_neg (by omega : ¬n.outline_level = 2 + 1), if_neg h3]
        by_cases hs : 2 + 3 ≤ m ∧ n.outline_level = m
        · rw [if_pos hs, if_pos ⟨hs.2, by omega⟩]
        · rw [if_neg hs, if_neg (fun hc => hs ⟨by omega, hc.1⟩)]

/-- C2: every output record's `hierarchyType` is determined from its outline
depth by the claimed cascade (with the anchor fixed at 2 and the sub_task
tier applying only when the maximum outline depth is at least 5), and a flat
schedule in which every record has depth 1 classifies every record as
project. -/
theorem c2_hierarchy (p : SrcProject) :
    (∀ n ∈ (parse_file p).tasks,
        n.hierarchy_type
          = claimTier (parse_file p).summary.max_outline_level n.outline_level)
    ∧ ((∀ n ∈ (parse_file p).tasks, n.outline_level = 1) →
        ∀ n ∈ (parse_file p).tasks, n.hierarchy_type = "project") := by
  have main : ∀ n ∈ (parse_file p).tasks,
      n.hierarchy_type
        = claimTier (parse_file p).summary.max_outline_level n.outline_level := by
    intro n hn
    obtain ⟨j, t, _, rfl⟩ := mem_parse_normalized hn
    have hmax : (parse_file p).summary.max_outline_level = parseMaxOutline p := rfl
    rw [hmax, finishNode_outline]
    show (overrideRoot (assignHierarchy (parseMaxOutline p) (normalizeTask j t))).hierarchy_type
      = claimTier (parseMaxOutline p) (normalizeTask j t).outline_level
    exact classify_eq (parseMaxOutline p) (normalizeTask j t)
  refine ⟨main, ?_⟩
  intro hflat n hn
  rw [main n hn, hflat n hn]
  simp [claimTier]

/-- Witness for C2 at the demonstration project: the depth-2 record "B" is
classified unit, the depth-1 summary root "A" is classified project. -/
theorem c2_hierarchy_witness :
    nodeB ∈ (parse_file demoProject).tasks
    ∧ nodeB.hierarchy_type
        = claimTier (parse_file demoProject).summary.max_outline_level nodeB.outline_level
    ∧ nodeA ∈ (parse_file demoProject).tasks
    ∧ nodeA.hierarchy_type
        = claimTier (parse_file demoProject).summary.max_outline_level nodeA.outline_level :=
  ⟨by decide, (c2_hierarchy demoProject).1 nodeB (by decide),
   by decide, (c2_hierarchy demoProject).1 nodeA (by decide)⟩

/-! ## C3 — folder builder -/

theorem build_folder_stable (byId : String → Option Node) :
    ∀ (k f : Nat) (tid : String), chainShort byId k tid = true → k ≤ f →
      build_folder byId f tid = build_folder byId k tid := by
  intro k
  induction k with
  | zero => intro f tid h _; exact absurd h (by simp [chainShort])
  | succ k ih =>
    intro f tid h hf
    obtain ⟨f', rfl⟩ : ∃ f', f = f' + 1 := ⟨f - 1, by omega⟩
    by_cases h0 : tid = ""
    · simp [build_folder, h0]
    · cases hb : byId tid with
      | none => simp [build_folder, h0, hb]
      | some node =>
        cases hp : node.parent_id with
        | none => simp [build_folder, h0, hb, hp]
        | some pid =>
          by_cases hpe : pid = ""
          · subst hpe; simp [build_folder, h0, hb, hp]
          · cases hbp : byId pid with
            | none => simp [build_folder, h0, hb, hp, hpe, hbp]
            | some pn =>
              have hc : chainShort byId k pid = true := by
                rw [chainShort] at h
                simp only [h0, hb, hp, hpe, hbp, if_neg, if_false] at h
                exact h
              have e1 : build_folder byId f' pid = build_folder byId k pid :=
                ih f' pid hc (by omega)
              simp only [build_folder, h0, hb, hp, hpe, hbp, if_neg, if_false]
              rw [e1]

/-- C3: `build_folder` returns the empty string for an empty or unresolvable
id, a record with no (or an empty) `parent_id`, or an unresolvable parent;
otherwise it satisfies folder(id) = folder(parentId) + " / " + parentName
when folder(parentId) is non-empty and just parentName otherwise; and on the
concrete 3-level chain root→mid→leaf named "A","B","C" it computes
folder(leaf) = "A / B" and folder(root) = "". -/
theorem c3_folder (byId : String → Option Node) (fuel : Nat) :
    (build_folder byId (fuel + 1) "" = "")
    ∧ (∀ task_id, byId task_id = none → build_folder byId (fuel + 1) task_id = "")
    ∧ (∀ task_id node, byId task_id = some node → node.parent_id = none →
        build_folder byId (fuel + 1) task_id = "")
    ∧ (∀ task_id node, byId task_id = some node → node.parent_id = some "" →
        build_folder byId (fuel + 1) task_id = "")
    ∧ (∀ task_id node pid, byId task_id = some node → node.parent_id = some pid →
        pid ≠ "" → byId pid = none → build_folder byId (fuel + 1) task_id = "")
    ∧ (∀ task_id node pid pnode, task_id ≠ "" →
        byId task_id = some node → node.parent_id = some pid → pid ≠ "" →
        byId pid = some pnode → chainShort byId fuel pid = true →
        build_folder byId (fuel + 1) task_id =
          (if build_folder byId (fuel + 1) pid = "" then parentDisplayName pnode pid
           else build_folder byId (fuel + 1) pid ++ " / " ++ parentDisplayName pnode pid))
    ∧ (build_folder (lookupById chainNodes) (chainNodes.length + 1) "l" = "A / B"
        ∧ build_folder (lookupById chainNodes) (chainNodes.length + 1) "r" = "") := by
  refine ⟨by simp [build_folder], ?_, ?_, ?_, ?_, ?_, by decide, by decide⟩
  · intro tid hb
    by_cases h0 : tid = "" <;> simp [build_folder, h0, hb]
  · intro tid node hb hp
    by_cases h0 : tid = "" <;> simp [build_folder, h0, hb, hp]
  · intro tid node hb hp
    by_cases h0 : tid = "" <;> simp [build_folder, h0, hb, hp]
  · intro tid node pid hb hp hpe hbp
    by_cases h0 : tid = "" <;> simp [build_folder, h0, hb, hp, hpe, hbp]
  · intro tid node pid pnode h0 hb hp hpe hbp hc
    have e1 : build_folder byId (fuel + 1) pid = build_folder byId fuel pid := by
      rw [build_folder_stable byId fuel (fuel + 1) pid hc (by omega)]
    conv_lhs => rw [build_folder]
    simp only [h0, hb, hp, hpe, hbp, if_neg, if_false]
    rw [e1]

/-- Witness for C3: the recursive folder equation instantiated on the leaf of
the concrete chain. -/
theorem c3_folder_witness :
    lookupById chainNodes "l" = some leafN
    ∧ leafN.parent_id = some "m"
    ∧ ("m" : String) ≠ ""
    ∧ lookupById chainNodes "m" = some midN
    ∧ chainShort (lookupById chainNodes) 2 "m" = true
    ∧ build_folder (lookupById chainNodes) 3 "l" =
        (if build_folder (lookupById chainNodes) 3 "m" = ""
         then parentDisplayName midN "m"
         else build_folder (lookupById chainNodes) 3 "m" ++ " / " ++ parentDisplayName midN "m") :=
  ⟨by decide, by decide, by decide, by decide, by decide,
   (c3_folder (lookupById chainNodes) 2).2.2.2.2.2.1 "l" leafN midN.id midN (by decide)
     (by decide) (by decide) (by decide) (by decide) (by decide)⟩

/-! ## C4 — coverage percent -/

theorem round2_nonneg {x : ℚ} (hx : 0 ≤ x) : 0 ≤ round2 x := by
  unfold round2
  have h1 : (0 : ℤ) ≤ round (x * 100) := by
    rw [round_eq]
    apply Int.floor_nonneg.mpr
    linarith
  have h2 : (0 : ℚ) ≤ ((round (x * 100) : ℤ) : ℚ) := by exact_mod_cast h1
  linarith

theorem round2_le_100 {x : ℚ} (hx : x ≤ 100) : round2 x ≤ 100 := by
  unfold round2
  have h1 : round (x * 100) ≤ 10000 := by
    rw [round_eq]
    have hfl : ((⌊x * 100 + 1 / 2⌋ : ℤ) : ℚ) ≤ x * 100 + 1 / 2 := Int.floor_le _
    have : ((⌊x * 100 + 1 / 2⌋ : ℤ) : ℚ) < 10001 := by linarith
    have hlt : ⌊x * 100 + 1 / 2⌋ < (10001 : ℤ) := by exact_mod_cast this
    omega
  have h2 : ((round (x * 100) : ℤ) : ℚ) ≤ 10000 := by exact_mod_cast h1
  linarith

/-- C4: the summary's `coveragePercent` equals round(linked / total × 100, 2)
over the leaf records (records with `is_summary = false`; linked means at
least one predecessor or successor), is 0 when there are no leaf records, and
always lies between 0 and 100. -/
theorem c4_coverage (p : SrcProject) :
    ((parse_file p).summary.dependencies.coveragePercent
      = (if 0 < ((parse_file p).tasks.filter (fun t => !t.is_summary)).length then
          round2 (((((parse_file p).tasks.filter (fun t => !t.is_summary)).filter
              isLinked).length : ℚ)
            / ((((parse_file p).tasks.filter (fun t => !t.is_summary))).length : ℚ) * 100)
        else 0))
    ∧ ((parse_file p).summary.dependencies.totalLeafTasks = 0 →
        (parse_file p).summary.dependencies.coveragePercent = 0)
    ∧ 0 ≤ (parse_file p).summary.dependencies.coveragePercent
    ∧ (parse_file p).summary.dependencies.coveragePercent ≤ 100 := by
  have hleaf : (parse_file p).summary.dependencies.totalLeafTasks
      = ((parse_file p).tasks.filter (fun t => !t.is_summary)).length := rfl
  have hcov : (parse_file p).summary.dependencies.coveragePercent
      = (if 0 < ((parse_file p).tasks.filter (fun t => !t.is_summary)).length then
          round2 (((((parse_file p).tasks.filter (fun t => !t.is_summary)).filter
              isLinked).length : ℚ)
            / ((((parse_file p).tasks.filter (fun t => !t.is_summary))).length : ℚ) * 100)
        else 0) := rfl
  refine ⟨hcov, ?_, ?_, ?_⟩
  · intro h
    rw [hleaf] at h
    rw [hcov, h]
    simp
  · rw [hcov]
    split
    · have hT : (0 : ℚ) < (((parse_file p).tasks.filter (fun t => !t.is_summary)).length : ℚ) := by
        exact_mod_cast ‹0 < ((parse_file p).tasks.filter (fun t => !t.is_summary)).length›
      apply round2_nonneg
      positivity
    · exact le_refl 0
  · rw [hcov]
    split
    · set L := (((parse_file p).tasks.filter (fun t => !t.is_summary)).filter isLinked).length
        with hL
      set T := ((parse_file p).tasks.filter (fun t => !t.is_summary)).length with hT
      have hLT : L ≤ T := List.length_filter_le _ _
      have hTpos : (0 : ℚ) < (T : ℚ) := by exact_mod_cast ‹0 < T›
      apply round2_le_100
      have hdiv : ((L : ℚ) / (T : ℚ)) ≤ 1 := by
        rw [div_le_one hTpos]
        exact_mod_cast hLT
      linarith
    · norm_num

/-- Witness for C4 at the empty project: no leaf records, coverage 0. -/
theorem c4_coverage_witness :
    (parse_file (SrcProject.mk none none)).summary.dependencies.totalLeafTasks = 0
    ∧ (parse_file (SrcProject.mk none none)).summary.dependencies.coveragePercent = 0 :=
  ⟨rfl, (c4_coverage (SrcProject.mk none none)).2.1 rfl⟩

/-! ## Decimal printing facts

`_task_id` compares strings produced by `toString` on boxed integers with the
literal prefixes "task-", "outline-" and the positional fallback "row-…".
The lemmas below characterize `Nat.repr` via `Nat.digits` to make those
comparisons: every rendered integer is non-empty, starts with a digit or a
minus sign, and renders injectively. -/

theorem toDigitsCore_eq_digits :
    ∀ (fuel n : ℕ) (ds : List Char), 0 < n → n < fuel →
      Nat.toDigitsCore 10 fuel n ds
        = ((Nat.digits 10 n).map Nat.digitChar).reverse ++ ds := by
  intro fuel
  induction fuel with
  | zero => intro n ds h1 h2; omega
  | succ fuel ih =>
    intro n ds h1 h2
    rw [Nat.toDigitsCore]
    by_cases hq : n / 10 = 0
    · simp only [hq, if_pos]
      rw [Nat.digits_def' (by norm_num : (1:ℕ) < 10) h1, hq]
      simp
    · rw [if_neg hq]
      have hq1 : 0 < n / 10 := Nat.pos_of_ne_zero hq
      have hlt : n / 10 < fuel := by omega
      rw [ih (n / 10) (Nat.digitChar (n % 10) :: ds) hq1 hlt]
      rw [Nat.digits_def' (by norm_num : (1:ℕ) < 10) h1]
      simp

theorem nat_repr_eq (n : ℕ) :
    Nat.repr n = if n = 0 then "0"
      else String.mk (((Nat.digits 10 n).map Nat.digitChar).reverse) := by
  by_cases h : n = 0
  · subst h; rfl
  · rw [if_neg h]
    show (Nat.toDigits 10 n).asString = _
    unfold Nat.toDigits
    rw [toDigitsCore_eq_digits (n + 1) n [] (Nat.pos_of_ne_zero h) (by omega)]
    simp [List.asString]

theorem string_mk_ne_empty {l : List Char} (h : l ≠ []) : String.mk l ≠ "" := by
  intro he
  exact h (congrArg String.data he)

theorem nat_repr_ne_empty (n : ℕ) : Nat.repr n ≠ "" := by
  rw [nat_repr_eq]
  split
  · decide
  · next h =>
    apply string_mk_ne_empty
    simp [Nat.digits_ne_nil_iff_ne_zero, h]

theorem nat_repr_chars (n : ℕ) :
    ∀ c ∈ (Nat.repr n).data, ∃ d, d < 10 ∧ c = Nat.digitChar d := by
  rw [nat_repr_eq]
  split
  · intro c hc
    simp only [String.data] at hc
    have : c = '0' := by simpa using hc
    exact ⟨0, by norm_num, by rw [this]; decide⟩
  · intro c hc
    have hc' : c ∈ ((Nat.digits 10 n).map Nat.digitChar).reverse := hc
    rw [List.mem_reverse] at hc'
    obtain ⟨d, hd, rfl⟩ := List.mem_map.mp hc'
    exact ⟨d, Nat.digits_lt_base (by norm_num) hd, rfl⟩

theorem digitChar_inj_lt :
    ∀ d < 10, ∀ e < 10, Nat.digitChar d = Nat.digitChar e → d = e := by decide

theorem digitChar_map_inj :
    ∀ (l1 l2 : List ℕ), (∀ d ∈ l1, d < 10) → (∀ d ∈ l2, d < 10) →
      l1.map Nat.digitChar = l2.map Nat.digitChar → l1 = l2 := by
  intro l1
  induction l1 with
  | nil =>
    intro l2 _ _ h
    cases l2 with
    | nil => rfl
    | cons e l2 => simp at h
  | cons d l ih =>
    intro l2 h1 h2 h
    cases l2 with
    | nil => simp at h
    | cons e l2 =>
      simp only [List.map_cons, List.cons.injEq] at h
      have hde : d = e :=
        digitChar_inj_lt d (h1 d (by simp)) e (h2 e (by simp)) h.1
      have := ih l2 (fun x hx => h1 x (by simp [hx])) (fun x hx => h2 x (by simp [hx])) h.2
      rw [hde, this]

theorem nat_repr_inj {a b : ℕ} (h : Nat.repr a = Nat.repr b) : a = b := by
  rw [nat_repr_eq, nat_repr_eq] at h
  by_cases ha : a = 0 <;> by_cases hb : b = 0
  · omega
  · exfalso
    rw [if_pos ha, if_neg hb] at h
    have hd : (['0'] : List Char) = ((Nat.digits 10 b).map Nat.digitChar).reverse :=
      congrArg String.data h
    have hmap : (Nat.digits 10 b).map Nat.digitChar = ['0'] := by
      have := congrArg List.reverse hd
      simpa using this.symm
    have : Nat.digits 10 b = [0] := by
      have h0 : ([0] : List ℕ).map Nat.digitChar = ['0'] := by decide
      exact digitChar_map_inj _ _
        (fun d hd' => Nat.digits_lt_base (by norm_num) hd')
        (by intro d hd'; simp at hd'; omega) (hmap.trans h0.symm)
    have hof := Nat.ofDigits_digits 10 b
    rw [‹Nat.digits 10 b = [0]›] at hof
    simp [Nat.ofDigits] at hof
    omega
  · exfalso
    rw [if_neg ha, if_pos hb] at h
    have hd : ((Nat.digits 10 a).map Nat.digitChar).reverse = (['0'] : List Char) :=
      congrArg String.data h
    have hmap : (Nat.digits 10 a).map Nat.digitChar = ['0'] := by
      have := congrArg List.reverse hd
      simpa using this
    have : Nat.digits 10 a = [0] := by
      have h0 : ([0] : List ℕ).map Nat.digitChar = ['0'] := by decide
      exact digitChar_map_inj _ _
        (fun d hd' => Nat.digits_lt_base (by norm_num) hd')
        (by intro d hd'; simp at hd'; omega) (hmap.trans h0.symm)
    have hof := Nat.ofDigits_digits 10 a
    rw [this] at hof
    simp [Nat.ofDigits] at hof
    omega
  · rw [if_neg ha, if_neg hb] at h
    have hd : ((Nat.digits 10 a).map Nat.digitChar).reverse
        = ((Nat.digits 10 b).map Nat.digitChar).reverse := congrArg String.data h
    have hmap : (Nat.digits 10 a).map Nat.digitChar = (Nat.digits 10 b).map Nat.digitChar := by
      have := congrArg List.reverse hd
      simpa using this
    have hdig : Nat.digits 10 a = Nat.digits 10 b :=
      digitChar_map_inj _ _
        (fun d hd' => Nat.digits_lt_base (by norm_num) hd')
        (fun d hd' => Nat.digits_lt_base (by norm_num) hd') hmap
    have := congrArg (Nat.ofDigits 10) hdig
    rwa [Nat.ofDigits_digits, Nat.ofDigits_digits] at this

/-! ## String shape lemmas for identifier disjointness -/

theorem string_ne_empty_of_data {s : String} (h : s.data ≠ []) : s ≠ "" := by
  intro he
  exact h (congrArg String.data he)

theorem append_data_head (a b : String) (c : Char) (rest : List Char)
    (ha : a.data = c :: rest) : (a ++ b).data.head? = some c := by
  rw [String.data_append, ha]
  rfl

theorem int_toString_ne_empty (i : Int) : toString i ≠ "" := by
  cases i with
  | ofNat m => exact nat_repr_ne_empty m
  | negSucc m =>
    show ("-" ++ toString (m + 1)) ≠ ""
    apply string_ne_empty_of_data
    rw [String.data_append]
    simp

theorem int_toString_head (i : Int) :
    ∃ c, (toString i).data.head? = some c
      ∧ (c = '-' ∨ ∃ d, d < 10 ∧ c = Nat.digitChar d) := by
  cases i with
  | ofNat m =>
    have hne : (Nat.repr m).data ≠ [] := by
      intro h
      exact nat_repr_ne_empty m (String.ext (by simp [h]))
    obtain ⟨c, rest, hc⟩ : ∃ c rest, (Nat.repr m).data = c :: rest := by
      cases hd : (Nat.repr m).data with
      | nil => exact absurd hd hne
      | cons c rest => exact ⟨c, rest, rfl⟩
    refine ⟨c, ?_, Or.inr ?_⟩
    · show (Nat.repr m).data.head? = some c
      rw [hc]; rfl
    · exact (nat_repr_chars m c (by rw [hc]; simp)).imp fun d hd => ⟨hd.1, hd.2⟩
  | negSucc m =>
    refine ⟨'-', ?_, Or.inl rfl⟩
    show (("-" : String) ++ toString (m + 1)).data.head? = some '-'
    exact append_data_head _ _ '-' [] rfl

theorem string_head_ne {s t : String} {c1 c2 : Char}
    (h1 : s.data.head? = some c1) (h2 : t.data.head? = some c2) (hne : c1 ≠ c2) :
    s ≠ t := by
  intro he
  rw [he, h2] at h1
  exact hne (Option.some.inj h1).symm

theorem digitChar_head_ne :
    ∀ d < 10, Nat.digitChar d ≠ 'r' ∧ Nat.digitChar d ≠ 't' ∧ Nat.digitChar d ≠ 'o' := by
  decide

theorem int_toString_head_ne {i : Int} {c : Char}
    (hc : c = 'r' ∨ c = 't' ∨ c = 'o') {s : String}
    (hs : s.data.head? = some c) : toString i ≠ s := by
  obtain ⟨c0, hc0, hshape⟩ := int_toString_head i
  apply string_head_ne hc0 hs
  rcases hshape with rfl | ⟨d, hd, rfl⟩
  · rcases hc with rfl | rfl | rfl <;> decide
  · obtain ⟨hr, ht, ho⟩ := digitChar_head_ne d hd
    rcases hc with rfl | rfl | rfl <;> assumption

theorem rowFallback_head (m : Nat) : (rowFallback m).data.head? = some 'r' :=
  append_data_head "row-" _ 'r' ['o', 'w', '-'] rfl

theorem rowFallback_ne_empty (m : Nat) : rowFallback m ≠ "" := by
  apply string_ne_empty_of_data
  intro h
  have := congrArg List.head? h
  rw [rowFallback_head m] at this
  simp at this

theorem rowFallback_inj {i j : Nat} (h : rowFallback i = rowFallback j) : i = j := by
  unfold rowFallback at h
  have hdata := congrArg String.data h
  rw [String.data_append, String.data_append] at hdata
  have h2 : (toString (i + 1)).data = (toString (j + 1)).data :=
    List.append_cancel_left hdata
  have h3 : Nat.repr (i + 1) = Nat.repr (j + 1) := String.ext h2
  have := nat_repr_inj h3
  omega

theorem task_id_eq_resolved (t : SrcTask) (fb : String) :
    _task_id t fb = (resolvedId t).getD fb := by
  unfold _task_id resolvedId
  cases t.getUniqueID with
  | some uid => rfl
  | none =>
    cases t.getID with
    | some tid => rfl
    | none =>
      cases t.getOutlineNumber with
      | some o =>
        by_cases ho : o = "" <;> simp [ho]
      | none => rfl

theorem resolvedId_ne_empty {t : SrcTask} {r : String} (h : resolvedId t = some r) :
    r ≠ "" := by
  unfold resolvedId at h
  cases hu : t.getUniqueID with
  | some uid => rw [hu] at h; cases h; exact int_toString_ne_empty uid
  | none =>
    rw [hu] at h
    cases hi : t.getID with
    | some tid =>
      rw [hi] at h
      cases h
      apply string_ne_empty_of_data
      rw [String.data_append]
      simp
    | none =>
      rw [hi] at h
      cases ho : t.getOutlineNumber with
      | some o =>
        rw [ho] at h
        dsimp only at h
        by_cases ho' : o = ""
        · rw [if_pos ho'] at h; cases h
        · rw [if_neg ho'] at h
          cases h
          apply string_ne_empty_of_data
          rw [String.data_append]
          simp
      | none => rw [ho] at h; simp at h

theorem resolvedId_ne_rowFallback {t : SrcTask} {r : String}
    (h : resolvedId t = some r) (m : Nat) : r ≠ rowFallback m := by
  have hrow := rowFallback_head m
  unfold resolvedId at h
  cases hu : t.getUniqueID with
  | some uid => rw [hu] at h; cases h; exact int_toString_head_ne (Or.inl rfl) hrow
  | none =>
    rw [hu] at h
    cases hi : t.getID with
    | some tid =>
      rw [hi] at h
      cases h
      exact string_head_ne (append_data_head "task-" _ 't' ['a', 's', 'k', '-'] rfl)
        hrow (by decide)
    | none =>
      rw [hi] at h
      cases ho : t.getOutlineNumber with
      | some o =>
        rw [ho] at h
        dsimp only at h
        by_cases ho' : o = ""
        · rw [if_pos ho'] at h; cases h
        · rw [if_neg ho'] at h
          cases h
          exact string_head_ne
            (append_data_head "outline-" _ 'o' ['u', 't', 'l', 'i', 'n', 'e', '-'] rfl)
            hrow (by decide)
      | none => rw [ho] at h; simp at h

/-! ## C8 — identifier resolver totality -/

theorem task_prefix_ne_empty (tid : Int) : ("task-" ++ toString tid) ≠ "" := by
  apply string_ne_empty_of_data
  rw [String.data_append]
  simp

theorem outline_prefix_ne_empty (o : String) : ("outline-" ++ o) ≠ "" := by
  apply string_ne_empty_of_data
  rw [String.data_append]
  simp

/-- C8: for every task and non-empty fallback, `_task_id` returns a non-empty
string (the embedding is a total function, so it cannot raise), and it equals
the specification's chain `resolveIdSpec`: the first of str(uniqueID),
"task-"+id, "outline-"+outlineNumber (that strategy yielding a value only for
a non-empty outline number), or the fallback, that is non-null and
non-empty. -/
theorem c8_resolve_id (t : SrcTask) (fallback : String) (hfb : fallback ≠ "") :
    _task_id t fallback ≠ "" ∧ _task_id t fallback = resolveIdSpec t fallback := by
  unfold _task_id resolveIdSpec
  have hfb' : (fallback == "") = false := beq_eq_false_iff_ne.mpr hfb
  cases hu : t.getUniqueID with
  | some uid =>
    have hne := int_toString_ne_empty uid
    have hne' : (toString uid == "") = false := beq_eq_false_iff_ne.mpr hne
    refine ⟨hne, ?_⟩
    simp [List.filterMap_cons, List.find?, hne']
  | none =>
    cases hi : t.getID with
    | some tid =>
      have hne := task_prefix_ne_empty tid
      have hne' : (("task-" ++ toString tid) == "") = false := beq_eq_false_iff_ne.mpr hne
      refine ⟨hne, ?_⟩
      simp [List.filterMap_cons, List.find?, hne']
    | none =>
      cases ho : t.getOutlineNumber with
      | some o =>
        by_cases ho' : o = ""
        · subst ho'
          refine ⟨by simp [hfb], ?_⟩
          simp [List.filterMap_cons, List.find?, hfb']
        · have hne := outline_prefix_ne_empty o
          have hne' : (("outline-" ++ o) == "") = false := beq_eq_false_iff_ne.mpr hne
          refine ⟨by simp [ho', hne], ?_⟩
          simp [List.filterMap_cons, List.find?, ho', hne']
      | none =>
        refine ⟨hfb, ?_⟩
        simp [List.filterMap_cons, List.find?, hfb']

/-- Witness for C8: a task with every identifier accessor absent resolves to
the positional fallback, which is non-empty. -/
theorem c8_resolve_id_witness :
    (("row-1" : String) ≠ "")
    ∧ _task_id (.mk none none none none none false false none none [] [] []) "row-1" ≠ ""
    ∧ _task_id (.mk none none none none none false false none none [] [] []) "row-1"
        = resolveIdSpec (.mk none none none none none false false none none [] [] []) "row-1" :=
  ⟨by decide,
   (c8_resolve_id (.mk none none none none none false false none none [] [] []) "row-1"
     (by decide)).1,
   (c8_resolve_id (.mk none none none none none false false none none [] [] []) "row-1"
     (by decide)).2⟩

/-! ## C1 — dedup invariants and output-id uniqueness -/

theorem dedupGo_eq :
    ∀ (ts : List SrcTask) (i : Nat) (seen : List String),
      dedupGo i seen ts = (keyFilter seen (stampGo i ts)).map Prod.fst := by
  intro ts
  induction ts with
  | nil => intro i seen; rfl
  | cons t ts ih =>
    intro i seen
    show (if _task_id t (rowFallback i) ∈ seen then dedupGo (i + 1) seen ts
          else t :: dedupGo (i + 1) (_task_id t (rowFallback i) :: seen) ts) = _
    simp only [stampGo, keyFilter]
    split
    · exact ih (i + 1) seen
    · simp [ih (i + 1) (_task_id t (rowFallback i) :: seen)]

theorem keyFilter_sublist :
    ∀ (l : List (SrcTask × String)) (seen : List String),
      List.Sublist (keyFilter seen l) l := by
  intro l
  induction l with
  | nil => intro seen; exact List.Sublist.refl _
  | cons pr rest ih =>
    intro seen
    obtain ⟨a, k⟩ := pr
    show List.Sublist (if k ∈ seen then keyFilter seen rest
        else (a, k) :: keyFilter (k :: seen) rest) _
    split
    · exact List.Sublist.cons _ (ih seen)
    · exact List.Sublist.cons₂ _ (ih (k :: seen))

theorem keyFilter_keys_nodup :
    ∀ (l : List (SrcTask × String)) (seen : List String),
      ((keyFilter seen l).map Prod.snd).Nodup
      ∧ ∀ k ∈ (keyFilter seen l).map Prod.snd, k ∉ seen := by
  intro l
  induction l with
  | nil => intro seen; exact ⟨List.nodup_nil, by simp [keyFilter]⟩
  | cons pr rest ih =>
    intro seen
    obtain ⟨a, k⟩ := pr
    have hrw : keyFilter seen ((a, k) :: rest)
        = if k ∈ seen then keyFilter seen rest
          else (a, k) :: keyFilter (k :: seen) rest := rfl
    rw [hrw]
    split
    · exact ih seen
    · next hk =>
      constructor
      · rw [List.map_cons, List.nodup_cons]
        refine ⟨fun hmem => ?_, (ih (k :: seen)).1⟩
        have := (ih (k :: seen)).2 k hmem
        simp at this
      · intro k' hk'
        rw [List.map_cons, List.mem_cons] at hk'
        rcases hk' with rfl | hk'
        · exact hk
        · have := (ih (k :: seen)).2 k' hk'
          intro hs
          exact this (by simp [hs])

theorem keyFilter_covers :
    ∀ (l : List (SrcTask × String)) (seen : List String) (a : SrcTask) (k : String),
      (a, k) ∈ l → k ∈ seen ∨ k ∈ (keyFilter seen l).map Prod.snd := by
  intro l
  induction l with
  | nil => intro seen a k h; simp at h
  | cons pr rest ih =>
    intro seen a k h
    obtain ⟨b, k'⟩ := pr
    rw [List.mem_cons] at h
    show k ∈ seen ∨ k ∈ (if k' ∈ seen then keyFilter seen rest
        else (b, k') :: keyFilter (k' :: seen) rest).map Prod.snd
    rcases h with h | h
    · obtain ⟨rfl, rfl⟩ := Prod.mk.injEq .. ▸ And.intro (congrArg Prod.fst h) (congrArg Prod.snd h)
      by_cases hk : k ∈ seen
      · exact Or.inl hk
      · rw [if_neg hk]
        exact Or.inr (by simp)
    · by_cases hk : k' ∈ seen
      · rw [if_pos hk]
        exact ih seen a k h
      · rw [if_neg hk]
        rcases ih (k' :: seen) a k h with hs | hs
        · rw [List.mem_cons] at hs
          rcases hs with rfl | hs
          · exact Or.inr (by simp)
          · exact Or.inl hs
        · exact Or.inr (by simp [hs])

theorem keyFilter_keys_eq_nubKeys :
    ∀ (l : List (SrcTask × String)) (seen : List String),
      (keyFilter seen l).map Prod.snd = nubKeys seen (l.map Prod.snd) := by
  intro l
  induction l with
  | nil => intro seen; rfl
  | cons pr rest ih =>
    intro seen
    obtain ⟨a, k⟩ := pr
    show (if k ∈ seen then keyFilter seen rest
        else (a, k) :: keyFilter (k :: seen) rest).map Prod.snd
      = (if k ∈ seen then nubKeys seen (rest.map Prod.snd)
        else k :: nubKeys (k :: seen) (rest.map Prod.snd))
    split
    · exact ih seen
    · simp [ih (k :: seen)]

theorem stampGo_fst : ∀ (ts : List SrcTask) (i : Nat), (stampGo i ts).map Prod.fst = ts := by
  intro ts
  induction ts with
  | nil => intro i; rfl
  | cons t ts ih => intro i; simp [stampGo, ih (i + 1)]

theorem stampGo_snd :
    ∀ (ts : List SrcTask) (i : Nat) (a : SrcTask) (k : String),
      (a, k) ∈ stampGo i ts → ∃ m, k = _task_id a (rowFallback m) := by
  intro ts
  induction ts with
  | nil => intro i a k h; simp [stampGo] at h
  | cons t ts ih =>
    intro i a k h
    rw [stampGo, List.mem_cons] at h
    rcases h with h | h
    · obtain ⟨rfl, rfl⟩ := Prod.mk.injEq .. ▸ And.intro (congrArg Prod.fst h) (congrArg Prod.snd h)
      exact ⟨i, rfl⟩
    · exact ih (i + 1) a k h

theorem task_id_rowFallback_ne_empty (t : SrcTask) (j : Nat) :
    _task_id t (rowFallback j) ≠ "" := by
  rw [task_id_eq_resolved]
  cases h : resolvedId t with
  | some r => exact resolvedId_ne_empty h
  | none => exact rowFallback_ne_empty j

theorem outIds_nodup :
    ∀ (D : List (SrcTask × String)) (start : Nat),
      (D.map Prod.snd).Nodup →
      (∀ pr ∈ D, ∃ m, pr.2 = _task_id pr.1 (rowFallback m)) →
      (mapWithIndex (fun j t => _task_id t (rowFallback j)) start (D.map Prod.fst)).Nodup := by
  intro D
  induction D with
  | nil => intro start _ _; simp [mapWithIndex]
  | cons pr D ih =>
    intro start hnd hshape
    obtain ⟨t, k⟩ := pr
    rw [List.map_cons] at hnd ⊢
    rw [List.nodup_cons] at hnd
    show (mapWithIndex _ start (t :: D.map Prod.fst)).Nodup
    rw [mapWithIndex, List.nodup_cons]
    constructor
    · intro hmem
      obtain ⟨j, t', hj, heq⟩ := mem_mapWithIndex hmem
      rw [List.getElem?_map] at hj
      cases hD : D[j]? with
      | none => rw [hD] at hj; simp at hj
      | some pr' =>
        rw [hD] at hj
        obtain ⟨t'', k'⟩ := pr'
        have ht' : t'' = t' := by simpa using hj
        subst ht'
        have hmem' : (t'', k') ∈ D := List.getElem?_mem hD
        have hk' : k' ∈ D.map Prod.snd := List.mem_map.mpr ⟨(t'', k'), hmem', rfl⟩
        obtain ⟨m, hm⟩ := hshape (t, k) (by simp)
        obtain ⟨m', hm'⟩ := hshape (t'', k') (by simp [hmem'])
        have hkk : k ≠ k' := fun he => hnd.1 (he ▸ hk')
        rw [task_id_eq_resolved] at heq hm
        rw [task_id_eq_resolved] at heq hm'
        cases hr : resolvedId t with
        | some r =>
          cases hr' : resolvedId t'' with
          | some r' =>
            rw [hr] at heq hm
            rw [hr'] at heq hm'
            simp only [Option.getD_some] at heq hm hm'
            exact hkk (by rw [hm, hm', heq])
          | none =>
            rw [hr] at heq
            rw [hr'] at heq
            simp only [Option.getD_some, Option.getD_none] at heq
            exact resolvedId_ne_rowFallback hr (start + 1 + j) heq
        | none =>
          cases hr' : resolvedId t'' with
          | some r' =>
            rw [hr] at heq
            rw [hr'] at heq
            simp only [Option.getD_some, Option.getD_none] at heq
            exact resolvedId_ne_rowFallback hr' start heq.symm
          | none =>
            rw [hr] at heq
            rw [hr'] at heq
            simp only [Option.getD_none] at heq
            have := rowFallback_inj heq
            omega
    · exact ih (start + 1) hnd.2 (fun q hq => hshape q (by simp [hq]))

theorem parse_ids_eq (p : SrcProject) :
    (parse_file p).tasks.map Node.id
      = mapWithIndex (fun j t => _task_id t (rowFallback j)) 0 (_collect_tasks p) := by
  rw [parse_tasks_eq, List.map_map]
  have h1 : (collectNodes p).map (Node.id ∘ finishNode p) = (collectNodes p).map Node.id :=
    List.map_congr_left (fun n _ => finishNode_id p n)
  rw [h1]
  show (mapWithIndex normalizeTask 0 (_collect_tasks p)).map Node.id = _
  rw [mapWithIndex_map]
  rfl

/-- C1: the output of `parse_file` contains exactly one record per distinct
stable identifier in first-seen candidate order (the collected list is a
subsequence of the candidate list whose dedup-time keys, computed with
candidate-position fallbacks, are duplicate-free, cover every candidate's
key, and list the distinct keys in first-seen order), and the `id` field of
every output record — recomputed with deduped-position fallbacks — is
non-empty and never duplicated within the output. -/
theorem c1_dedup_invariants (p : SrcProject) :
    ((parse_file p).tasks.map Node.id).Nodup
    ∧ (∀ n ∈ (parse_file p).tasks, n.id ≠ "")
    ∧ List.Sublist (_collect_tasks p) (candidates p)
    ∧ _collect_tasks p = (keyFilter [] (stampGo 0 (candidates p))).map Prod.fst
    ∧ ((keyFilter [] (stampGo 0 (candidates p))).map Prod.snd).Nodup
    ∧ (∀ k ∈ (stampGo 0 (candidates p)).map Prod.snd,
        k ∈ (keyFilter [] (stampGo 0 (candidates p))).map Prod.snd)
    ∧ (keyFilter [] (stampGo 0 (candidates p))).map Prod.snd
        = nubKeys [] ((stampGo 0 (candidates p)).map Prod.snd) := by
  have hkf : _collect_tasks p = (keyFilter [] (stampGo 0 (candidates p))).map Prod.fst :=
    dedupGo_eq (candidates p) 0 []
  refine ⟨?_, ?_, ?_, hkf, (keyFilter_keys_nodup _ []).1, ?_, keyFilter_keys_eq_nubKeys _ []⟩
  · rw [parse_ids_eq, hkf]
    apply outIds_nodup
    · exact (keyFilter_keys_nodup _ []).1
    · intro pr hpr
      obtain ⟨t, k⟩ := pr
      exact stampGo_snd (candidates p) 0 t k
        ((keyFilter_sublist (stampGo 0 (candidates p)) []).subset hpr)
  · intro n hn
    obtain ⟨j, t, _, rfl⟩ := mem_parse_normalized hn
    rw [finishNode_id]
    exact task_id_rowFallback_ne_empty t j
  · rw [hkf]
    have := (keyFilter_sublist (stampGo 0 (candidates p)) []).map Prod.fst
    rwa [stampGo_fst] at this
  · intro k hk
    obtain ⟨pr, hpr, rfl⟩ := List.mem_map.mp hk
    obtain ⟨t, k⟩ := pr
    rcases keyFilter_covers (stampGo 0 (candidates p)) [] t k hpr with hs | hs
    · simp at hs
    · exact hs

/-- Witness for C1 at the demonstration project: the record for root task "A"
is in the output with a non-empty identifier. -/
theorem c1_dedup_invariants_witness :
    nodeA ∈ (parse_file demoProject).tasks ∧ nodeA.id ≠ "" :=
  ⟨by decide, (c1_dedup_invariants demoProject).2.1 nodeA (by decide)⟩
